import Mathlib

set_option maxHeartbeats 1000000

/-!
Shallow embedding of the nr.interface module
(src/nr.interface/src/nr/interface/__init__.py).

Python object identity is modelled by numeric ids: every interface carries
an `id`, every member a `mid`, and every plain function an id of type `Nat`.
Attribute lookup `getattr` on an interface is modelled as depth-first
left-to-right search through the declared parents (which agrees with
CPython's MRO lookup on the hierarchies manipulated here), and `dir` as the
sorted, deduplicated list of all member names.  The Python values `None`
and `NotImplemented` used as property-slot markers are modelled by the
`Slot` type.
-/

/-- One property slot value as stored in `Property.getter_impl` etc.:
Python `None`, Python `NotImplemented`, or a default implementation
function identified by its id. -/
inductive Slot where
  | pyNone
  | notImplemented
  | fn (id : Nat)
deriving DecidableEq

/-- A concrete Python `property` object: getter/setter/deleter functions,
each optional (`None` when absent), identified by their ids. -/
structure PyProperty where
  fget : Option Nat
  fset : Option Nat
  fdel : Option Nat
deriving DecidableEq

/-- The slot data of a `Property` member (class `Property` in the source). -/
structure PropertySpec where
  getter_impl : Slot
  setter_impl : Slot
  deleter_impl : Slot
  getter_final : Bool
  setter_final : Bool
  deleter_final : Bool
deriving DecidableEq

/-- A bound interface member: `Method`, `Attribute` or `Property` from the
source, with `mid` modelling Python object identity of the member. -/
inductive Member where
  | method (mid : Nat) (name : String) (impl : Option Nat) (final : Bool)
  | attr (mid : Nat) (name : String)
  | prop (mid : Nat) (name : String) (spec : PropertySpec)
deriving DecidableEq

/-- The `name` attribute of a member. -/
def Member.name : Member → String
  | .method _ n _ _ => n
  | .attr _ n => n
  | .prop _ n _ => n

/-- The identity of the member object. -/
def Member.midOf : Member → Nat
  | .method m _ _ _ => m
  | .attr m _ => m
  | .prop m _ _ => m

/-- An interface class: its identity, its declared base interfaces
(`__bases__`) and the members of its own class dict. -/
inductive Iface where
  | mk (id : Nat) (parents : List Iface) (ownMembers : List Member)

/-- The identity of the interface class object. -/
def Iface.idOf : Iface → Nat
  | .mk i _ _ => i

/-- The declared bases of the interface. -/
def Iface.parents : Iface → List Iface
  | .mk _ ps _ => ps

/-- The members stored in the interface's own class dict. -/
def Iface.ownMembers : Iface → List Member
  | .mk _ _ ms => ms

mutual

/-- Python `issubclass(a, b)`: `b` is `a` itself or appears among the
transitive bases of `a` (identity of classes modelled by `idOf`). -/
def Iface.isSubclass : Iface → Iface → Bool
  | .mk i ps _, b => i == b.idOf || isSubclassList ps b

/-- `issubclass` mapped over a list of bases. -/
def isSubclassList : List Iface → Iface → Bool
  | [], _ => false
  | p :: ps, b => p.isSubclass b || isSubclassList ps b

end

mutual

/-- All member names visible on an interface, its own first, then those of
its bases depth-first (with duplicates; `dir` dedups and sorts later). -/
def Iface.allNamesRaw : Iface → List String
  | .mk _ ps ms => ms.map Member.name ++ allNamesList ps

/-- `allNamesRaw` concatenated over a list of bases. -/
def allNamesList : List Iface → List String
  | [] => []
  | p :: ps => p.allNamesRaw ++ allNamesList ps

end

mutual

/-- Python `getattr(interface, name)` restricted to `_Member` values: look
in the interface's own dict, then in the bases depth-first left-to-right. -/
def Iface.getattrM : Iface → String → Option Member
  | .mk _ ps ms, n =>
    match ms.find? (fun m => m.name == n) with
    | some m => some m
    | none => getattrList ps n

/-- `getattrM` over a list of bases, returning the first hit. -/
def getattrList : List Iface → String → Option Member
  | [], _ => none
  | p :: ps, n =>
    match p.getattrM n with
    | some m => some m
    | none => getattrList ps n

end

mutual

/-- The interface together with every ancestor reachable through declared
parents: the classes visited by the registration loop of
`Implementation.__metanew__`. -/
def Iface.selfAndAncestors : Iface → List Iface
  | .mk i ps ms => .mk i ps ms :: ancestorsList ps

/-- `selfAndAncestors` concatenated over a list of bases. -/
def ancestorsList : List Iface → List Iface
  | [] => []
  | p :: ps => p.selfAndAncestors ++ ancestorsList ps

end

/-- Lexicographic comparison of character lists, as Python compares
strings. -/
def charListLe : List Char → List Char → Bool
  | [], _ => true
  | _ :: _, [] => false
  | a :: as, b :: bs =>
    if a < b then true else if b < a then false else charListLe as bs

/-- Python string comparison `a <= b`. -/
def strLe (a b : String) : Bool := charListLe a.data b.data

/-- Python `s.startswith(pre)`. -/
def strStartsWith (s pre : String) : Bool := pre.data.isPrefixOf s.data

/-- Python `s.endswith(suf)`. -/
def strEndsWith (s suf : String) : Bool := suf.data.isSuffixOf s.data

/-- Insert a name into an alphabetically sorted list of names. -/
def insertSorted (s : String) : List String → List String
  | [] => [s]
  | x :: xs => if strLe s x then s :: x :: xs else x :: insertSorted s xs

/-- Sort a list of names alphabetically, as Python `dir` does. -/
def sortNames (l : List String) : List String :=
  l.foldr insertSorted []

/-- Python `dir(interface)` restricted to member names: every visible
member name, without duplicates, alphabetically sorted. -/
def Iface.dirNames (i : Iface) : List String :=
  sortNames i.allNamesRaw.dedup

/-- `members_of(interface)` from the source: for every name yielded by
`dir`, the attribute value, kept when it is a `_Member`. -/
def members_of (i : Iface) : List Member :=
  i.dirNames.filterMap i.getattrM

/-- `Property.is_pure_default` from the source: Python
`all(x is not None for x in [getter_impl, setter_impl, deleter_impl])` —
note that `NotImplemented` is not `None` and therefore counts as pure. -/
def PropertySpec.is_pure_default (sp : PropertySpec) : Bool :=
  !(sp.getter_impl == Slot.pyNone) && !(sp.setter_impl == Slot.pyNone) &&
    !(sp.deleter_impl == Slot.pyNone)

/-- The default implementation stored in a slot, when one exists
(models `self.x_impl not in (None, NotImplemented)`). -/
def slotFn : Slot → Option Nat
  | .fn i => some i
  | _ => none

/-- `Property.satisfy` from the source: checks the supplied concrete
property against the member's slots, raising `ValueError` (modelled as
`Except.error` with the message) at the first violation, otherwise
returning the resolved property to install. -/
def PropertySpec.satisfy (sp : PropertySpec) (name : String) (value : PyProperty) :
    Except String PyProperty :=
  if value.fget.isSome && sp.getter_final then
    .error ("propery " ++ name ++ ": getter must not be implemented")
  else if value.fset.isSome && sp.setter_final then
    .error ("propery " ++ name ++ ": setter must not be implemented")
  else if value.fdel.isSome && sp.deleter_final then
    .error ("propery " ++ name ++ ": deleter must not be implemented")
  else if sp.getter_impl == Slot.pyNone && !value.fget.isSome then
    .error ("property " ++ name ++ ": missing getter")
  else if sp.setter_impl == Slot.pyNone && !value.fset.isSome then
    .error ("property " ++ name ++ ": missing setter")
  else if sp.deleter_impl == Slot.pyNone && !value.fdel.isSome then
    .error ("property " ++ name ++ ": missing deleter")
  else
    .ok { fget := if value.fget.isSome then value.fget else slotFn sp.getter_impl
          fset := if value.fset.isSome then value.fset else slotFn sp.setter_impl
          fdel := if value.fdel.isSome then value.fdel else slotFn sp.deleter_impl }

/-- `get_conflicting_members(a, b)` from the source: empty when the
interfaces are related by subclassing, otherwise the names of members of
`a` for which `getattr(b, name)` yields a member that is not the
identical object (`am is not bm`). -/
def get_conflicting_members (a b : Iface) : List String :=
  if a.isSubclass b || b.isSubclass a then []
  else
    (members_of a).filterMap fun am =>
      match b.getattrM am.name with
      | some bm => if am.midOf == bm.midOf then none else some am.name
      | none => none

/-- The `implements(*interfaces)` helper: starting from the accumulated
`__implements__` list, process each new interface in order; raise
`ConflictingInterfacesError(x, y)` at the first already-listed `y`
conflicting with `x`, and append `x` unless already present
(list membership of classes is object identity). -/
def implements (implementsList : List Iface) : List Iface → Except (Iface × Iface) (List Iface)
  | [] => .ok implementsList
  | x :: xs =>
    match implementsList.find? (fun y => !(get_conflicting_members x y).isEmpty) with
    | some y => .error (x, y)
    | none =>
      let l :=
        if implementsList.any (fun y => y.idOf == x.idOf) then implementsList
        else implementsList ++ [x]
      implements l xs

/-- One step of the `reduce_interfaces` loop: scan the kept list; at the
first kept interface related to the new one, replace it (new is a
subclass) or drop the new one (new is a superclass); append otherwise. -/
def reduceStep (result : List Iface) (interface : Iface) : List Iface :=
  match result with
  | [] => [interface]
  | r :: rs =>
    if interface.isSubclass r then interface :: rs
    else if r.isSubclass interface then r :: rs
    else r :: reduceStep rs interface

/-- `reduce_interfaces(interfaces)` from the source. -/
def reduce_interfaces (interfaces : List Iface) : List Iface :=
  interfaces.foldl reduceStep []

/-- `has_member(interface, member)` from the source: false for private or
constructor-like names, otherwise true iff the attribute resolves to a
`Method` or `Attribute` (a `Property` does not count). -/
def has_member (i : Iface) (member : String) : Bool :=
  if (strStartsWith member "_" && !(strEndsWith member "_")) ||
      member == "__new__" || member == "__init__" then false
  else
    match i.getattrM member with
    | some (.method _ _ _ _) => true
    | some (.attr _ _) => true
    | _ => false

/-- A value in the class dict of an implementation under construction:
a plain function (with its `__is_override__` flag), a `property` object,
Python `None`, or any other object (carrying its type name). -/
inductive Value where
  | fn (id : Nat) (is_override : Bool)
  | pyProp (p : PyProperty)
  | pyNone
  | other (typeName : String)
deriving DecidableEq

/-- `type(value).__name__` for error messages. -/
def Value.kindName : Value → String
  | .fn _ _ => "function"
  | .pyProp _ => "property"
  | .pyNone => "NoneType"
  | .other t => t

/-- Python `member.impl == attrs[member.name]` (identity-like equality of
function objects; `None` equals only `None`). -/
def implMatches : Option Nat → Value → Bool
  | some i, .fn j _ => i == j
  | none, .pyNone => true
  | _, _ => false

/-- The default-merge loop of `Implementation.__metanew__` for one member:
a `Method` with a default whose name is absent from the dict is installed
into the dict. -/
def mergeMember (attrs : List (String × Value)) (m : Member) : List (String × Value) :=
  match m with
  | .method _ n (some i) _ =>
    if (List.lookup n attrs).isSome then attrs else attrs ++ [(n, .fn i false)]
  | _ => attrs

/-- The whole default-merge phase: every method default of every reduced
interface, in order. -/
def mergeDefaults (implementsList : List Iface) (attrs : List (String × Value)) :
    List (String × Value) :=
  implementsList.foldl (fun acc i => (members_of i).foldl mergeMember acc) attrs

/-- The validation of one member against the (merged) class dict: the
error strings it contributes, exactly as in the source's loop. -/
def memberErrors (attrs : List (String × Value)) : Member → List String
  | .method _ n impl final =>
    match List.lookup n attrs with
    | some v =>
      if final && !implMatches impl v then
        ["implemented final method: " ++ n ++ "()"]
      else
        match v with
        | .fn _ _ => []
        | _ => ["expected method, got " ++ v.kindName ++ ": " ++ n ++ "()"]
    | none => ["missing method: " ++ n ++ "()"]
  | .attr _ _ => []
  | .prop _ n sp =>
    match List.lookup n attrs with
    | none => if !sp.is_pure_default then ["missing property: " ++ n] else []
    | some (.pyProp p) =>
      match sp.satisfy n p with
      | .error e => [e]
      | .ok _ => []
    | some v => ["expected property, got " ++ v.kindName ++ ": " ++ n]

/-- The per-interface error list of the validation phase. -/
def checkInterface (attrs : List (String × Value)) (i : Iface) : List String :=
  (members_of i).flatMap (memberErrors attrs)

/-- The first interface whose validation produced a nonempty error list,
with those errors: the `ImplementationError` raised by the source. -/
def firstFailing (attrs : List (String × Value)) : List Iface → Option (Iface × List String)
  | [] => none
  | i :: rest =>
    let e := checkInterface attrs i
    if e.isEmpty then firstFailing attrs rest else some (i, e)

/-- The `@override` check: the first function in the class dict marked as
an override that matches no member of any implemented interface. -/
def overrideFailure (implementsList : List Iface) (attrs : List (String × Value)) :
    Option String :=
  (attrs.find? fun kv =>
    match kv.2 with
    | .fn _ true => !implementsList.any (fun i => has_member i kv.1)
    | _ => false).map (·.1)

/-- The registration loop: every reduced interface and, transitively,
every ancestor reachable through declared parents. -/
def registerAll (implementsList : List Iface) : List Iface :=
  implementsList.flatMap Iface.selfAndAncestors

/-- The exception raised by `Implementation.__metanew__`. -/
inductive MetanewError where
  | implementationError (interface : Iface) (errors : List String)
  | overrideError (name : String)

/-- The outcome of `Implementation.__metanew__`: the raised error if any,
the class dict after default merging, and the interfaces whose
`implementations` set gained the new type.  A raise happens before the
registration loop, so on error nothing is registered. -/
structure MetanewResult where
  error : Option MetanewError
  attrs : List (String × Value)
  registered : List Iface

/-- `Implementation.__metanew__` from the source: reduce the implements
list, merge method defaults, validate each interface raising at the first
offending one, run the override check, then register the type with every
remaining interface and its ancestors. -/
def metanew (implements0 : List Iface) (attrs0 : List (String × Value)) : MetanewResult :=
  let impls := reduce_interfaces implements0
  let attrs := mergeDefaults impls attrs0
  match firstFailing attrs impls with
  | some (i, errs) => { error := some (.implementationError i errs), attrs, registered := [] }
  | none =>
    match overrideFailure impls attrs with
    | some n => { error := some (.overrideError n), attrs, registered := [] }
    | none => { error := none, attrs, registered := registerAll impls }

/-- A whole type declaration: the `implements(...)` calls run while the
class body executes (a `ConflictingInterfacesError` aborts the declaration
before the metaclass ever runs), then `Implementation.__metanew__`. -/
def declareImpl (interfaces : List Iface) (attrs0 : List (String × Value)) :
    Except (Iface × Iface) MetanewResult :=
  match implements [] interfaces with
  | .error e => .error e
  | .ok l => .ok (metanew l attrs0)

/-- The interfaces whose `implementations` set gained the type during one
declaration: none when the declaration was aborted by a
`ConflictingInterfacesError`. -/
def registeredOf : Except (Iface × Iface) MetanewResult → List Iface
  | .error _ => []
  | .ok r => r.registered

/-- A raw function object in an interface class body, with the flags set
by the `default` / `final` decorators. -/
structure RawFn where
  fid : Nat
  is_default : Bool
  is_final : Bool
deriving DecidableEq

/-- A raw value in an interface class body before normalization: a plain
function, a Python `property` built from optional raw functions, an
unbound member placeholder as produced by `attr()`, or anything else. -/
inductive RawValue where
  | func (f : RawFn)
  | pyProp (fget fset fdel : Option RawFn)
  | placeholder
  | otherRaw
deriving DecidableEq

/-- `Method.is_candidate(name, value)` from the source: private names and
constructor-like names are excluded, otherwise functions qualify. -/
def Method.is_candidate (name : String) (value : RawValue) : Bool :=
  if strStartsWith name "_" && !(strEndsWith name "_") then false
  else if name == "__new__" || name == "__init__" || name == "__constructed__" then false
  else
    match value with
    | .func _ => true
    | _ => false

/-- `Property.is_candidate(name, value)` from the source: any `property`
object qualifies, with no restriction on the name. -/
def Property.is_candidate (_name : String) (value : RawValue) : Bool :=
  match value with
  | .pyProp _ _ _ => true
  | _ => false

/-- `Property.from_python_property` from the source: a slot whose function
is marked default keeps it; a getter otherwise becomes `None`; a supplied
non-default setter or deleter becomes `None`, an absent one
`NotImplemented`; finality is read off the slot functions. -/
def Property.from_python_property (mid : Nat) (key : String)
    (fget fset fdel : Option RawFn) : Member :=
  let getter := match fget with
    | some f => if f.is_default then Slot.fn f.fid else Slot.pyNone
    | none => Slot.pyNone
  let setter := match fset with
    | some f => if f.is_default then Slot.fn f.fid else Slot.pyNone
    | none => Slot.notImplemented
  let deleter := match fdel with
    | some f => if f.is_default then Slot.fn f.fid else Slot.pyNone
    | none => Slot.notImplemented
  let gf := match fget with | some f => f.is_final | none => false
  let sf := match fset with | some f => f.is_final | none => false
  let df := match fdel with | some f => f.is_final | none => false
  .prop mid key ⟨getter, setter, deleter, gf, sf, df⟩

/-- The classification of one raw class-body entry in
`Interface.__metanew__`: an unbound member is bound to its key (whatever
the key), then function declarations become `Method` members and
properties become `Property` members; anything else stays a plain
attribute and yields no member. -/
def classifyRaw (mid : Nat) (key : String) (value : RawValue) : Option Member :=
  match value with
  | .placeholder => some (.attr mid key)
  | _ =>
    if Method.is_candidate key value then
      match value with
      | .func f => some (.method mid key (if f.is_default then some f.fid else none) f.is_final)
      | _ => none
    else if Property.is_candidate key value then
      match value with
      | .pyProp g s d => some (Property.from_python_property mid key g s d)
      | _ => none
    else none

/-- `Interface.__metanew__` member normalization over a whole raw class
body: the members created or bound, fresh member identities taken from
the position in the body. -/
def interfaceNew (rawAttrs : List (String × RawValue)) : List Member :=
  rawAttrs.enum.filterMap fun p => classifyRaw p.1 p.2.1 p.2.2

/-- Reachability through declared parents: `Reaches i x` holds when `x`
is `i` itself or an ancestor of `i`. -/
inductive Reaches : Iface → Iface → Prop where
  | refl (i : Iface) : Reaches i i
  | step {i p x : Iface} : p ∈ i.parents → Reaches p x → Reaches i x

/-! Helper lemmas about the embedded operations. -/

theorem lookup_append {α β : Type} [BEq α] (n : α) (l1 l2 : List (α × β)) :
    List.lookup n (l1 ++ l2) =
      match List.lookup n l1 with
      | some v => some v
      | none => List.lookup n l2 := by
  induction l1 with
  | nil => simp
  | cons kv l1 ih =>
    obtain ⟨k, v⟩ := kv
    by_cases h : n == k
    · simp [List.lookup, h]
    · simp only [List.cons_append, List.lookup]
      rw [Bool.of_not_eq_true h]
      exact ih

theorem lookup_append_some {α β : Type} [BEq α] {n : α} {l1 : List (α × β)} {v : β}
    (l2 : List (α × β)) (h : List.lookup n l1 = some v) :
    List.lookup n (l1 ++ l2) = some v := by
  rw [lookup_append, h]

theorem lookup_append_none {α β : Type} [BEq α] {n : α} {l1 : List (α × β)}
    (l2 : List (α × β)) (h : List.lookup n l1 = none) :
    List.lookup n (l1 ++ l2) = List.lookup n l2 := by
  rw [lookup_append, h]

theorem mem_insertSorted (s x : String) (l : List String) :
    x ∈ insertSorted s l ↔ x = s ∨ x ∈ l := by
  induction l with
  | nil => simp [insertSorted]
  | cons y ys ih =>
    by_cases h : strLe s y = true
    · simp [insertSorted, h]
    · simp [insertSorted, h, ih]
      tauto

theorem mem_sortNames (x : String) (l : List String) :
    x ∈ sortNames l ↔ x ∈ l := by
  induction l with
  | nil => simp [sortNames]
  | cons y ys ih =>
    simp only [sortNames, List.foldr_cons] at *
    rw [mem_insertSorted, ih, List.mem_cons]

theorem nodup_insertSorted (s : String) (l : List String)
    (hs : s ∉ l) (h : l.Nodup) : (insertSorted s l).Nodup := by
  induction l with
  | nil => simp [insertSorted]
  | cons y ys ih =>
    simp only [List.mem_cons, not_or] at hs
    simp only [List.nodup_cons] at h
    rw [show insertSorted s (y :: ys) =
      if strLe s y then s :: y :: ys else y :: insertSorted s ys from rfl]
    cases hle : strLe s y with
    | true =>
      simp only [if_true]
      refine List.nodup_cons.2 ⟨?_, List.nodup_cons.2 ⟨h.1, h.2⟩⟩
      simp only [List.mem_cons, not_or]
      exact ⟨hs.1, hs.2⟩
    | false =>
      simp only [Bool.false_eq_true, if_false]
      rw [List.nodup_cons]
      refine ⟨fun hy => ?_, ih hs.2 h.2⟩
      rw [mem_insertSorted] at hy
      rcases hy with rfl | hy
      · exact hs.1 rfl
      · exact h.1 hy

theorem nodup_sortNames (l : List String) (h : l.Nodup) : (sortNames l).Nodup := by
  induction l with
  | nil => simp [sortNames]
  | cons y ys ih =>
    have hstep : sortNames (y :: ys) = insertSorted y (sortNames ys) := rfl
    simp only [List.nodup_cons] at h
    rw [hstep]
    refine nodup_insertSorted _ _ ?_ (ih h.2)
    rw [mem_sortNames]
    exact h.1

theorem dirNames_nodup (i : Iface) : i.dirNames.Nodup :=
  nodup_sortNames _ i.allNamesRaw.nodup_dedup

theorem mem_dirNames (i : Iface) (n : String) :
    n ∈ i.dirNames ↔ n ∈ i.allNamesRaw := by
  rw [Iface.dirNames, mem_sortNames, List.mem_dedup]

mutual

theorem getattrM_name : ∀ (i : Iface) (n : String) (m : Member),
    i.getattrM n = some m → m.name = n
  | .mk _ ps ms, n, m => by
    simp only [Iface.getattrM]
    cases hf : ms.find? (fun m => m.name == n) with
    | some m' =>
      intro h
      cases h
      have hb := List.find?_some hf
      simp only [beq_iff_eq] at hb
      exact hb
    | none =>
      intro h
      exact getattrList_name ps n m h

theorem getattrList_name : ∀ (l : List Iface) (n : String) (m : Member),
    getattrList l n = some m → m.name = n
  | [], _, _ => by simp [getattrList]
  | p :: ps, n, m => by
    simp only [getattrList]
    cases hp : p.getattrM n with
    | some m' =>
      intro h
      cases h
      exact getattrM_name p n m hp
    | none =>
      intro h
      exact getattrList_name ps n m h

end

mutual

theorem getattrM_mem_allNames : ∀ (i : Iface) (n : String) (m : Member),
    i.getattrM n = some m → n ∈ i.allNamesRaw
  | .mk _ ps ms, n, m => by
    simp only [Iface.getattrM, Iface.allNamesRaw, List.mem_append]
    cases hf : ms.find? (fun m => m.name == n) with
    | some m' =>
      intro h
      cases h
      left
      have hmem := List.mem_of_find?_eq_some hf
      have hname := List.find?_some hf
      simp only [beq_iff_eq] at hname
      exact hname ▸ List.mem_map_of_mem Member.name hmem
    | none =>
      intro h
      exact Or.inr (getattrList_mem_allNames ps n m h)

theorem getattrList_mem_allNames : ∀ (l : List Iface) (n : String) (m : Member),
    getattrList l n = some m → n ∈ allNamesList l
  | [], _, _ => by simp [getattrList]
  | p :: ps, n, m => by
    simp only [getattrList, allNamesList, List.mem_append]
    cases hp : p.getattrM n with
    | some m' =>
      intro h
      cases h
      exact Or.inl (getattrM_mem_allNames p n m hp)
    | none =>
      intro h
      exact Or.inr (getattrList_mem_allNames ps n m h)

end

theorem getattrM_eq_none_of_not_mem {i : Iface} {n : String}
    (h : n ∉ i.allNamesRaw) : i.getattrM n = none := by
  cases hm : i.getattrM n with
  | none => rfl
  | some m => exact absurd (getattrM_mem_allNames i n m hm) h

mutual

theorem mem_selfAndAncestors : ∀ (i x : Iface),
    x ∈ i.selfAndAncestors ↔ Reaches i x
  | .mk iid ps ms, x => by
    simp only [Iface.selfAndAncestors, List.mem_cons]
    constructor
    · rintro (rfl | hx)
      · exact Reaches.refl _
      · obtain ⟨p, hp, hr⟩ := (mem_ancestorsList ps x).1 hx
        exact Reaches.step hp hr
    · intro hr
      cases hr with
      | refl => exact Or.inl rfl
      | step hp hr' => exact Or.inr ((mem_ancestorsList ps x).2 ⟨_, hp, hr'⟩)

theorem mem_ancestorsList : ∀ (l : List Iface) (x : Iface),
    x ∈ ancestorsList l ↔ ∃ p ∈ l, Reaches p x
  | [], x => by simp [ancestorsList]
  | p :: ps, x => by
    simp only [ancestorsList, List.mem_append, List.mem_cons]
    rw [mem_selfAndAncestors p x, mem_ancestorsList ps x]
    constructor
    · rintro (h | ⟨q, hq, hr⟩)
      · exact ⟨p, Or.inl rfl, h⟩
      · exact ⟨q, Or.inr hq, hr⟩
    · rintro ⟨q, hq | hq, hr⟩
      · cases hq
        exact Or.inl hr
      · exact Or.inr ⟨q, hq, hr⟩

end

theorem map_name_filterMap_sublist (i : Iface) :
    ∀ l : List String, ((l.filterMap i.getattrM).map Member.name).Sublist l := by
  intro l
  induction l with
  | nil => simp
  | cons n ns ih =>
    cases hn : i.getattrM n with
    | none =>
      simp only [List.filterMap_cons, hn]
      exact ih.cons n
    | some m =>
      simp only [List.filterMap_cons, hn, List.map_cons]
      have hname : m.name = n := getattrM_name i n m hn
      rw [hname]
      exact ih.cons₂ n

theorem members_of_names_nodup (i : Iface) :
    ((members_of i).map Member.name).Nodup :=
  (dirNames_nodup i).sublist (map_name_filterMap_sublist i i.dirNames)

theorem members_of_nodup (i : Iface) : (members_of i).Nodup :=
  (members_of_names_nodup i).of_map Member.name

theorem mem_members_of_getattr {i : Iface} {m : Member}
    (h : m ∈ members_of i) : i.getattrM m.name = some m := by
  obtain ⟨n, _, hn⟩ := List.mem_filterMap.1 h
  have hname := getattrM_name i n m hn
  rw [hname]
  exact hn

theorem mem_members_of_name_mem_allNames {i : Iface} {m : Member}
    (h : m ∈ members_of i) : m.name ∈ i.allNamesRaw :=
  getattrM_mem_allNames i m.name m (mem_members_of_getattr h)

theorem merge_preserve_some :
    ∀ (ms : List Member) (attrs : List (String × Value)) {n : String} {v : Value},
      List.lookup n attrs = some v →
      List.lookup n (ms.foldl mergeMember attrs) = some v := by
  intro ms
  induction ms with
  | nil => intro attrs n v h; simpa using h
  | cons m rest ih =>
    intro attrs n v h
    rw [List.foldl_cons]
    apply ih
    cases m with
    | method mid nm impl f =>
      cases impl with
      | none => exact h
      | some d =>
        simp only [mergeMember]
        by_cases hs : (List.lookup nm attrs).isSome
        · rw [if_pos hs]; exact h
        · rw [if_neg hs]; exact lookup_append_some _ h
    | attr mid nm => exact h
    | prop mid nm sp => exact h

theorem merge_keeps_none :
    ∀ (ms : List Member) (attrs : List (String × Value)) {n : String},
      (∀ m ∈ ms, ∀ mid d f, m = Member.method mid n (some d) f → False) →
      List.lookup n attrs = none →
      List.lookup n (ms.foldl mergeMember attrs) = none := by
  intro ms
  induction ms with
  | nil => intro attrs n _ h; simpa using h
  | cons m rest ih =>
    intro attrs n hno h
    rw [List.foldl_cons]
    apply ih _ (fun m' hm' => hno m' (List.mem_cons_of_mem m hm'))
    cases m with
    | method mid nm impl f =>
      cases impl with
      | none => exact h
      | some d =>
        simp only [mergeMember]
        by_cases hs : (List.lookup nm attrs).isSome
        · rw [if_pos hs]; exact h
        · rw [if_neg hs]
          rw [lookup_append_none _ h]
          have hne : ¬(n = nm) := by
            intro heq
            exact hno (Member.method mid nm (some d) f) (List.mem_cons_self _ _)
              mid d f (by rw [heq])
          have hb : (n == nm) = false := beq_eq_false_iff_ne.2 hne
          simp only [List.lookup, hb]
    | attr mid nm => exact h
    | prop mid nm sp => exact h

theorem merge_insert (l1 l2 : List Member) (attrs : List (String × Value))
    (mid d : Nat) (f : Bool) {n : String}
    (hl1 : ∀ m' ∈ l1, ∀ mid' d' f', m' = Member.method mid' n (some d') f' → False)
    (h0 : List.lookup n attrs = none) :
    List.lookup n ((l1 ++ Member.method mid n (some d) f :: l2).foldl mergeMember attrs) =
      some (Value.fn d false) := by
  rw [List.foldl_append, List.foldl_cons]
  have h1 : List.lookup n (l1.foldl mergeMember attrs) = none :=
    merge_keeps_none l1 attrs hl1 h0
  have hstep : mergeMember (l1.foldl mergeMember attrs) (Member.method mid n (some d) f) =
      l1.foldl mergeMember attrs ++ [(n, Value.fn d false)] := by
    simp only [mergeMember, h1, Option.isSome_none, Bool.false_eq_true, if_false]
  rw [hstep]
  apply merge_preserve_some
  rw [lookup_append_none _ h1]
  simp [List.lookup]

theorem members_of_split {i : Iface} {m : Member} (h : m ∈ members_of i) :
    ∃ l1 l2, members_of i = l1 ++ m :: l2 ∧
      (∀ m' ∈ l1, m'.name ≠ m.name) ∧ (∀ m' ∈ l2, m'.name ≠ m.name) := by
  obtain ⟨l1, l2, hsplit⟩ := List.append_of_mem h
  refine ⟨l1, l2, hsplit, ?_, ?_⟩
  · intro m' hm' heq
    have hn := members_of_names_nodup i
    rw [hsplit, List.map_append, List.map_cons, List.nodup_append] at hn
    exact hn.2.2 (List.mem_map_of_mem Member.name hm') (by rw [heq]; exact List.mem_cons_self _ _)
  · intro m' hm' heq
    have hn := members_of_names_nodup i
    rw [hsplit, List.map_append, List.map_cons, List.nodup_append, List.nodup_cons] at hn
    exact hn.2.1.1 (heq ▸ List.mem_map_of_mem Member.name hm')

theorem flatMap_split (f : Member → List String) (l1 l2 : List Member) (m : Member)
    (h1 : ∀ m' ∈ l1, f m' = []) (h2 : ∀ m' ∈ l2, f m' = []) :
    (l1 ++ m :: l2).flatMap f = f m := by
  rw [List.flatMap_append, List.flatMap_cons]
  have e1 : l1.flatMap f = [] := by
    rw [List.flatMap_eq_nil_iff]; exact h1
  have e2 : l2.flatMap f = [] := by
    rw [List.flatMap_eq_nil_iff]; exact h2
  rw [e1, e2]
  simp

theorem isSubclass_refl (i : Iface) : i.isSubclass i = true := by
  cases i with
  | mk iid ps ms => simp [Iface.isSubclass, Iface.idOf]

theorem reduce_single (i : Iface) : reduce_interfaces [i] = [i] := rfl

theorem mergeDefaults_single (i : Iface) (attrs : List (String × Value)) :
    mergeDefaults [i] attrs = (members_of i).foldl mergeMember attrs := rfl

theorem firstFailing_spec :
    ∀ (l : List Iface) (attrs : List (String × Value)) (i : Iface) (errs : List String),
      firstFailing attrs l = some (i, errs) →
      errs = checkInterface attrs i ∧ errs ≠ [] ∧
        ∃ l1 l2, l = l1 ++ i :: l2 ∧ ∀ j ∈ l1, checkInterface attrs j = [] := by
  intro l
  induction l with
  | nil => intro attrs i errs h; simp [firstFailing] at h
  | cons hd rest ih =>
    intro attrs i errs
    simp only [firstFailing]
    by_cases he : (checkInterface attrs hd).isEmpty
    · rw [if_pos he]
      intro hf
      obtain ⟨h1, h2, l1, l2, hsplit, hall⟩ := ih attrs i errs hf
      refine ⟨h1, h2, hd :: l1, l2, by rw [List.cons_append, hsplit], ?_⟩
      intro j hj
      rcases List.mem_cons.1 hj with rfl | hj'
      · exact List.isEmpty_iff.1 he
      · exact hall j hj'
    · rw [if_neg he]
      intro hf
      have hinj := Option.some.inj hf
      have hi : hd = i := congrArg Prod.fst hinj
      have herrs : checkInterface attrs hd = errs := congrArg Prod.snd hinj
      subst hi
      refine ⟨herrs.symm, ?_, [], rest, rfl, by simp⟩
      rw [← herrs]
      intro hnil
      rw [hnil] at he
      exact he rfl

theorem metanew_unfold (implements0 : List Iface) (attrs0 : List (String × Value)) :
    metanew implements0 attrs0 =
      match firstFailing (mergeDefaults (reduce_interfaces implements0) attrs0)
          (reduce_interfaces implements0) with
      | some (i, errs) =>
        { error := some (.implementationError i errs),
          attrs := mergeDefaults (reduce_interfaces implements0) attrs0,
          registered := [] }
      | none =>
        match overrideFailure (reduce_interfaces implements0)
            (mergeDefaults (reduce_interfaces implements0) attrs0) with
        | some n =>
          { error := some (.overrideError n),
            attrs := mergeDefaults (reduce_interfaces implements0) attrs0,
            registered := [] }
        | none =>
          { error := none,
            attrs := mergeDefaults (reduce_interfaces implements0) attrs0,
            registered := registerAll (reduce_interfaces implements0) } := rfl

theorem metanew_error_firstFailing {implements0 : List Iface}
    {attrs0 : List (String × Value)} {i : Iface} {errs : List String}
    (h : (metanew implements0 attrs0).error = some (.implementationError i errs)) :
    firstFailing (mergeDefaults (reduce_interfaces implements0) attrs0)
      (reduce_interfaces implements0) = some (i, errs) := by
  cases hf : firstFailing (mergeDefaults (reduce_interfaces implements0) attrs0)
      (reduce_interfaces implements0) with
  | some p =>
    obtain ⟨i', errs'⟩ := p
    rw [metanew_unfold, hf] at h
    simp only [Option.some.injEq, MetanewError.implementationError.injEq] at h
    rw [h.1, h.2]
  | none =>
    rw [metanew_unfold, hf] at h
    cases ho : overrideFailure (reduce_interfaces implements0)
        (mergeDefaults (reduce_interfaces implements0) attrs0) with
    | some n => rw [ho] at h; simp at h
    | none => rw [ho] at h; simp at h

theorem metanew_success {implements0 : List Iface} {attrs0 : List (String × Value)}
    (h : (metanew implements0 attrs0).error = none) :
    (metanew implements0 attrs0).registered = registerAll (reduce_interfaces implements0) := by
  cases hf : firstFailing (mergeDefaults (reduce_interfaces implements0) attrs0)
      (reduce_interfaces implements0) with
  | some p =>
    obtain ⟨i', errs'⟩ := p
    rw [metanew_unfold, hf] at h
    simp at h
  | none =>
    cases ho : overrideFailure (reduce_interfaces implements0)
        (mergeDefaults (reduce_interfaces implements0) attrs0) with
    | some n => rw [metanew_unfold, hf, ho] at h; simp at h
    | none => rw [metanew_unfold, hf, ho]

theorem metanew_failure {implements0 : List Iface} {attrs0 : List (String × Value)}
    {e : MetanewError} (h : (metanew implements0 attrs0).error = some e) :
    (metanew implements0 attrs0).registered = [] := by
  cases hf : firstFailing (mergeDefaults (reduce_interfaces implements0) attrs0)
      (reduce_interfaces implements0) with
  | some p =>
    obtain ⟨i', errs'⟩ := p
    rw [metanew_unfold, hf]
  | none =>
    cases ho : overrideFailure (reduce_interfaces implements0)
        (mergeDefaults (reduce_interfaces implements0) attrs0) with
    | some n => rw [metanew_unfold, hf, ho]
    | none => rw [metanew_unfold, hf, ho] at h; simp at h

/-! Concrete interfaces used by witnesses and counterexamples. -/

/-- An interface with one required method `m`. -/
def fixBase : Iface := .mk 50 [] [.method 20 "m" none false]

/-- A subinterface of `fixBase` with no own members. -/
def fixD1 : Iface := .mk 51 [fixBase] []

/-- An interface with one required method `foo`. -/
def fixFoo : Iface := .mk 30 [] [.method 2 "foo" none false]

/-- An interface with one required method `bar`. -/
def fixBar : Iface := .mk 31 [] [.method 3 "bar" none false]

/-- An interface declaring its own method `move`. -/
def fixFlyer : Iface := .mk 100 [] [.method 10 "move" none false]

/-- An unrelated interface declaring a distinct method object also named
`move`. -/
def fixSwimmer : Iface := .mk 101 [] [.method 11 "move" none false]

/-- An interface with one required method `greet`. -/
def fixGreeter : Iface := .mk 20 [] [.method 1 "greet" none false]

/-- An interface with a final method `close` whose default is function 5. -/
def fixFinal : Iface := .mk 40 [] [.method 4 "close" (some 5) true]

/-- A root interface with no members. -/
def fixA : Iface := .mk 0 [] []

/-- Another root interface with no members, unrelated to `fixA`. -/
def fixC : Iface := .mk 1 [] []

/-- An interface subclassing both `fixA` and `fixC`. -/
def fixB : Iface := .mk 2 [fixA, fixC] []

/-! Claim theorems. -/

/-- C7: `Property.satisfy` succeeds exactly when no final slot receives a
concrete override and no slot is required (`None`) yet unsupplied; on
success every slot of the resolved property is the concrete value when
supplied and otherwise the slot's default; in particular a property with
getter default and unspecified setter/deleter resolves a setter-only
candidate to default getter plus concrete setter. -/
theorem C7_property_satisfy :
    ∀ (sp : PropertySpec) (n : String) (value : PyProperty),
      (((sp.satisfy n value).isOk = true) ↔
        ¬((value.fget.isSome = true ∧ sp.getter_final = true) ∨
          (value.fset.isSome = true ∧ sp.setter_final = true) ∨
          (value.fdel.isSome = true ∧ sp.deleter_final = true) ∨
          (sp.getter_impl = Slot.pyNone ∧ value.fget.isSome = false) ∨
          (sp.setter_impl = Slot.pyNone ∧ value.fset.isSome = false) ∨
          (sp.deleter_impl = Slot.pyNone ∧ value.fdel.isSome = false))) ∧
      (∀ r, sp.satisfy n value = .ok r →
        r = ⟨(if value.fget.isSome then value.fget else slotFn sp.getter_impl),
             (if value.fset.isSome then value.fset else slotFn sp.setter_impl),
             (if value.fdel.isSome then value.fdel else slotFn sp.deleter_impl)⟩) ∧
      PropertySpec.satisfy
          ⟨Slot.fn 1, Slot.notImplemented, Slot.notImplemented, false, false, false⟩
          n ⟨none, some 9, none⟩ =
        .ok ⟨some 1, some 9, none⟩ := by
  intro sp n value
  refine ⟨?_, ?_, rfl⟩
  · unfold PropertySpec.satisfy
    split_ifs with h1 h2 h3 h4 h5 h6 <;>
      simp_all [Except.isOk, Bool.and_eq_true, beq_iff_eq] <;> tauto
  · intro r h
    unfold PropertySpec.satisfy at h
    split_ifs at h <;> simp_all

/-- A property member slot spec with getter default and unspecified
setter/deleter. -/
def fixSp : PropertySpec :=
  ⟨Slot.fn 1, Slot.notImplemented, Slot.notImplemented, false, false, false⟩

/-- A candidate property supplying only a setter. -/
def fixCandidate : PyProperty := ⟨none, some 9, none⟩

/-- Witness for C7 at a concrete property member and candidate. -/
theorem C7_property_satisfy_witness :
    ((fixSp.satisfy "x" fixCandidate).isOk = true) ∧
    PyProperty.mk (some 1) (some 9) none =
      ⟨(if fixCandidate.fget.isSome then fixCandidate.fget else slotFn fixSp.getter_impl),
       (if fixCandidate.fset.isSome then fixCandidate.fset else slotFn fixSp.setter_impl),
       (if fixCandidate.fdel.isSome then fixCandidate.fdel else slotFn fixSp.deleter_impl)⟩ :=
  ⟨(C7_property_satisfy fixSp "x" fixCandidate).1.mpr (by decide),
   (C7_property_satisfy fixSp "x" fixCandidate).2.1 ⟨some 1, some 9, none⟩ rfl⟩

/-- C8 counterexample: a property built from a default getter with absent
setter and deleter — the claim's "getter default and no setter/deleter
requirement" case — has `is_pure_default = true`, not `false` as the
claim asserts, because `NotImplemented` slots are not `None`. -/
theorem C8_counterexample :
    Property.from_python_property 0 "x" (some ⟨1, true, false⟩) none none =
      Member.prop 0 "x" fixSp ∧
    fixSp.is_pure_default = true :=
  ⟨rfl, rfl⟩

/-- C8 amended: `is_pure_default` is true iff no slot is `None` (required
without default); equivalently, a property absent from the class dict
contributes no "missing property" error exactly when `is_pure_default`
holds — slots that are `NotImplemented` count toward pure-default. -/
theorem C8_is_pure_default :
    ∀ (sp : PropertySpec) (mid : Nat) (n : String) (attrs : List (String × Value)),
      List.lookup n attrs = none →
      ((memberErrors attrs (.prop mid n sp) = [] ↔ sp.is_pure_default = true) ∧
       (sp.is_pure_default = true ↔
         (sp.getter_impl ≠ Slot.pyNone ∧ sp.setter_impl ≠ Slot.pyNone ∧
          sp.deleter_impl ≠ Slot.pyNone))) := by
  intro sp mid n attrs h
  constructor
  · simp only [memberErrors, h]
    cases hp : sp.is_pure_default <;> simp [hp]
  · simp only [PropertySpec.is_pure_default, Bool.and_eq_true, Bool.not_eq_true',
      beq_eq_false_iff_ne, ne_eq]
    tauto

/-- Witness for C8 at the concrete slot spec of the counterexample. -/
theorem C8_is_pure_default_witness :
    (memberErrors [] (.prop 0 "x" fixSp) = [] ↔ fixSp.is_pure_default = true) ∧
    (fixSp.is_pure_default = true ↔
      (fixSp.getter_impl ≠ Slot.pyNone ∧ fixSp.setter_impl ≠ Slot.pyNone ∧
       fixSp.deleter_impl ≠ Slot.pyNone)) :=
  C8_is_pure_default fixSp 0 "x" [] rfl

/-- C9 counterexample: a `property`-shaped declaration under the private
name `_x` does become a `Property` member of the interface — the privacy
exclusion does not apply to property-shaped values. -/
theorem C9_counterexample :
    interfaceNew [("_x", RawValue.pyProp (some ⟨3, true, false⟩) none none)] =
      [Member.prop 0 "_x"
        ⟨Slot.fn 3, Slot.notImplemented, Slot.notImplemented, false, false, false⟩] ∧
    (interfaceNew [("_x", RawValue.pyProp (some ⟨3, true, false⟩) none none)]).map
        Member.name = ["_x"] :=
  ⟨rfl, rfl⟩

/-- C9 amended: a privacy-marked name (leading underscore, no trailing
underscore) excludes only function-shaped declarations from member
candidacy; a property-shaped value still becomes a `Property` member and
an unbound placeholder is still bound, both keeping the private name. -/
theorem C9_privacy_excludes_only_methods :
    ∀ (mid : Nat) (key : String),
      strStartsWith key "_" = true → strEndsWith key "_" = false →
      ((∀ f, classifyRaw mid key (.func f) = none) ∧
       (∀ g s d, classifyRaw mid key (.pyProp g s d) =
         some (Property.from_python_property mid key g s d)) ∧
       classifyRaw mid key .placeholder = some (.attr mid key)) := by
  intro mid key h1 h2
  refine ⟨?_, ?_, rfl⟩
  · intro f
    simp [classifyRaw, Method.is_candidate, Property.is_candidate, h1, h2]
  · intro g s d
    simp [classifyRaw, Method.is_candidate, Property.is_candidate, h1, h2]

/-- Witness for C9 at the concrete private name of the counterexample. -/
theorem C9_privacy_witness :
    classifyRaw 0 "_x" (.func ⟨7, false, false⟩) = none ∧
    classifyRaw 0 "_x" RawValue.placeholder = some (.attr 0 "_x") :=
  ⟨(C9_privacy_excludes_only_methods 0 "_x" (by decide) (by decide)).1 ⟨7, false, false⟩,
   (C9_privacy_excludes_only_methods 0 "_x" (by decide) (by decide)).2.2⟩

/-- The accumulated implements list holds pairwise distinct interface
objects. -/
def NodupIds (l : List Iface) : Prop := (l.map Iface.idOf).Nodup

theorem gcm_self (x : Iface) : get_conflicting_members x x = [] := by
  simp [get_conflicting_members, isSubclass_refl]

theorem implements_ok_nodup :
    ∀ (xs cur res : List Iface), implements cur xs = .ok res →
      NodupIds cur → NodupIds res := by
  intro xs
  induction xs with
  | nil =>
    intro cur res h hc
    simp only [implements, Except.ok.injEq] at h
    rw [← h]
    exact hc
  | cons x rest ih =>
    intro cur res h hc
    simp only [implements] at h
    cases hfind : cur.find? (fun y => !(get_conflicting_members x y).isEmpty) with
    | some y =>
      rw [hfind] at h
      simp at h
    | none =>
      rw [hfind] at h
      by_cases hany : cur.any (fun y => y.idOf == x.idOf) = true
      · rw [if_pos hany] at h
        exact ih _ res h hc
      · rw [if_neg hany] at h
        apply ih _ res h
        unfold NodupIds at hc ⊢
        rw [List.map_append, List.map_cons, List.map_nil, List.nodup_append]
        refine ⟨hc, List.nodup_singleton _, ?_⟩
        intro a ha hb
        simp only [List.mem_singleton] at hb
        obtain ⟨y, hy, hya⟩ := List.mem_map.1 ha
        apply hany
        rw [List.any_eq_true]
        exact ⟨y, hy, by rw [hya, hb]; exact beq_self_eq_true _⟩

theorem implements_self_twice (x : Iface) : implements [] [x, x] = .ok [x] := by
  have h0 : get_conflicting_members x x = [] := gcm_self x
  simp [implements, h0]

/-- C10: an interface already in the accumulating implements list is not
appended again (the list stays duplicate-free), and declaring the same
interface twice succeeds because an interface never conflicts with
itself. -/
theorem C10_implements_no_duplicates :
    (∀ x : Iface, get_conflicting_members x x = []) ∧
    (∀ (xs cur res : List Iface), implements cur xs = .ok res →
      NodupIds cur → NodupIds res) ∧
    (∀ x : Iface, implements [] [x, x] = .ok [x]) :=
  ⟨gcm_self, implements_ok_nodup, implements_self_twice⟩

/-- Witness for C10: the duplicated-interface call at a concrete
interface, and the duplicate-freeness of its result. -/
theorem C10_implements_witness :
    implements [] [fixFlyer, fixFlyer] = .ok [fixFlyer] ∧ NodupIds [fixFlyer] :=
  ⟨C10_implements_no_duplicates.2.2 fixFlyer,
   C10_implements_no_duplicates.2.1 [fixFlyer, fixFlyer] [] [fixFlyer]
     (C10_implements_no_duplicates.2.2 fixFlyer) (by simp [NodupIds])⟩

theorem gcm_related_empty (a b : Iface)
    (h : (a.isSubclass b || b.isSubclass a) = true) :
    get_conflicting_members a b = [] := by
  simp [get_conflicting_members, h]

theorem gcm_mem_iff (a b : Iface)
    (h : (a.isSubclass b || b.isSubclass a) = false) (n : String) :
    n ∈ get_conflicting_members a b ↔
      ∃ am ∈ members_of a, am.name = n ∧
        ∃ bm, b.getattrM n = some bm ∧ am.midOf ≠ bm.midOf := by
  simp only [get_conflicting_members, h, Bool.false_eq_true, if_false]
  rw [List.mem_filterMap]
  constructor
  · rintro ⟨am, ham, hf⟩
    cases hbm : b.getattrM am.name with
    | none => rw [hbm] at hf; simp at hf
    | some bm =>
      rw [hbm] at hf
      have hf' : (if (am.midOf == bm.midOf) = true then none
          else some am.name : Option String) = some n := hf
      by_cases hmid : (am.midOf == bm.midOf) = true
      · rw [if_pos hmid] at hf'; simp at hf'
      · rw [if_neg hmid] at hf'
        have hn := Option.some.inj hf'
        refine ⟨am, ham, hn, bm, ?_, ?_⟩
        · rw [← hn]; exact hbm
        · intro he
          exact hmid (by rw [he]; exact beq_self_eq_true _)
  · rintro ⟨am, ham, hn, bm, hget, hmid⟩
    refine ⟨am, ham, ?_⟩
    rw [hn, hget]
    show (if (am.midOf == bm.midOf) = true then none
      else some n : Option String) = some n
    rw [if_neg (by simp [hmid])]

theorem gcm_no_shared_names {a b : Iface}
    (hdisj : ∀ n ∈ a.allNamesRaw, n ∉ b.allNamesRaw) :
    get_conflicting_members a b = [] := by
  by_cases hrel : (a.isSubclass b || b.isSubclass a) = true
  · exact gcm_related_empty a b hrel
  · simp only [get_conflicting_members, Bool.not_eq_true] at hrel ⊢
    rw [hrel]
    simp only [Bool.false_eq_true, if_false]
    rw [List.filterMap_eq_nil_iff]
    intro am ham
    have hna := mem_members_of_name_mem_allNames ham
    have hnb := hdisj _ hna
    rw [getattrM_eq_none_of_not_mem hnb]

/-- C3: conflicting members of two interfaces — empty whenever one
subclasses the other; otherwise exactly the names of members of `a` for
which `b` resolves a same-named member that is not the identical object;
and empty in both orders for interfaces with disjoint member-name sets. -/
theorem C3_conflicting_members :
    (∀ a b : Iface, (a.isSubclass b || b.isSubclass a) = true →
      get_conflicting_members a b = []) ∧
    (∀ a b : Iface, (a.isSubclass b || b.isSubclass a) = false →
      ∀ n, n ∈ get_conflicting_members a b ↔
        ∃ am ∈ members_of a, am.name = n ∧
          ∃ bm, b.getattrM n = some bm ∧ am.midOf ≠ bm.midOf) ∧
    (∀ a b : Iface, (∀ n ∈ a.allNamesRaw, n ∉ b.allNamesRaw) →
      get_conflicting_members a b = [] ∧ get_conflicting_members b a = []) :=
  ⟨gcm_related_empty, gcm_mem_iff, fun _ _ hdisj =>
    ⟨gcm_no_shared_names hdisj,
     gcm_no_shared_names (fun n hb ha => hdisj n ha hb)⟩⟩

/-- Witness for C3: a subclass pair, the characterization at the
conflicting pair, and a disjoint-name pair, all concrete. -/
theorem C3_conflicting_members_witness :
    get_conflicting_members fixD1 fixBase = [] ∧
    ("move" ∈ get_conflicting_members fixSwimmer fixFlyer ↔
      ∃ am ∈ members_of fixSwimmer, am.name = "move" ∧
        ∃ bm, fixFlyer.getattrM "move" = some bm ∧ am.midOf ≠ bm.midOf) ∧
    get_conflicting_members fixFoo fixBar = [] ∧
    get_conflicting_members fixBar fixFoo = [] :=
  ⟨C3_conflicting_members.1 fixD1 fixBase (by decide),
   C3_conflicting_members.2.1 fixSwimmer fixFlyer (by decide) "move",
   (C3_conflicting_members.2.2 fixFoo fixBar (by decide)).1,
   (C3_conflicting_members.2.2 fixFoo fixBar (by decide)).2⟩

theorem reduceStep_length (r : List Iface) (x : Iface) :
    (reduceStep r x).length ≤ r.length + 1 := by
  induction r with
  | nil => simp [reduceStep]
  | cons hd tl ih =>
    simp only [reduceStep]
    by_cases h1 : x.isSubclass hd = true
    · rw [if_pos h1]; simp
    · rw [if_neg h1]
      by_cases h2 : hd.isSubclass x = true
      · rw [if_pos h2]; simp
      · rw [if_neg h2]
        simp only [List.length_cons]
        exact Nat.succ_le_succ ih

theorem reduce_foldl_length :
    ∀ (l acc : List Iface), (l.foldl reduceStep acc).length ≤ acc.length + l.length := by
  intro l
  induction l with
  | nil => intro acc; simp
  | cons x xs ih =>
    intro acc
    rw [List.foldl_cons]
    calc (xs.foldl reduceStep (reduceStep acc x)).length
        ≤ (reduceStep acc x).length + xs.length := ih _
      _ ≤ (acc.length + 1) + xs.length :=
          Nat.add_le_add_right (reduceStep_length acc x) _
      _ = acc.length + (x :: xs).length := by simp only [List.length_cons]; omega

/-- C4 counterexample: over `[A, C, B]` where `B` subclasses both of the
unrelated roots `A` and `C`, the scan replaces only `A`, leaving the
result `[B, C]` whose two elements are related by subtyping — the claimed
pairwise-unrelatedness invariant fails. -/
theorem C4_counterexample :
    reduce_interfaces [fixA, fixC, fixB] = [fixB, fixC] ∧
    fixB.isSubclass fixC = true ∧
    fixA.isSubclass fixC = false ∧ fixC.isSubclass fixA = false :=
  ⟨rfl, rfl, rfl, rfl⟩

/-- C4 amended: `reduce_interfaces` scans left to right replacing the
first kept supertype, dropping a new supertype, appending otherwise; the
result is never longer than the input and the claimed two-element
behaviors hold — but the result is not in general pairwise unrelated. -/
theorem C4_reduce_interfaces :
    (∀ l : List Iface, (reduce_interfaces l).length ≤ l.length) ∧
    (∀ A B : Iface, B.isSubclass A = true → reduce_interfaces [A, B] = [B]) ∧
    (∀ A B : Iface, B.isSubclass A = false → A.isSubclass B = true →
      reduce_interfaces [A, B] = [A]) ∧
    (∀ A B : Iface, B.isSubclass A = false → A.isSubclass B = false →
      reduce_interfaces [A, B] = [A, B]) := by
  refine ⟨fun l => by simpa using reduce_foldl_length l [], ?_, ?_, ?_⟩
  · intro A B h
    show reduceStep [A] B = [B]
    simp [reduceStep, h]
  · intro A B h1 h2
    show reduceStep [A] B = [A]
    simp [reduceStep, h1, h2]
  · intro A B h1 h2
    show reduceStep [A] B = [A, B]
    simp [reduceStep, h1, h2]

/-- Witness for C4 at concrete related and unrelated pairs. -/
theorem C4_reduce_interfaces_witness :
    (reduce_interfaces [fixBase, fixD1]).length ≤ 2 ∧
    reduce_interfaces [fixBase, fixD1] = [fixD1] ∧
    reduce_interfaces [fixD1, fixBase] = [fixD1] ∧
    reduce_interfaces [fixFoo, fixBar] = [fixFoo, fixBar] :=
  ⟨C4_reduce_interfaces.1 [fixBase, fixD1],
   C4_reduce_interfaces.2.1 fixBase fixD1 rfl,
   C4_reduce_interfaces.2.2.1 fixD1 fixBase rfl rfl,
   C4_reduce_interfaces.2.2.2 fixFoo fixBar rfl rfl⟩

/-- C1 counterexample: with two offending interfaces, the raised
`ImplementationError` carries only the first interface's errors; the
second interface's "missing method: bar()" violation is absent from the
raised error list, contradicting the claimed accumulation across all
interfaces. -/
theorem C1_counterexample :
    (metanew [fixFoo, fixBar] []).error =
      some (.implementationError fixFoo ["missing method: foo()"]) ∧
    checkInterface (mergeDefaults (reduce_interfaces [fixFoo, fixBar]) []) fixBar =
      ["missing method: bar()"] ∧
    ("missing method: bar()" : String) ∉ (["missing method: foo()"] : List String) :=
  ⟨rfl, rfl, by decide⟩

/-- C1 amended: errors are accumulated without short-circuiting across the
members of one interface only; the first interface whose error list is
nonempty raises an `ImplementationError` carrying exactly that
interface's errors, and every interface before it validated cleanly
(later interfaces are never checked). -/
theorem C1_first_offending_interface :
    ∀ (implements0 : List Iface) (attrs0 : List (String × Value)) (i : Iface)
      (errs : List String),
      (metanew implements0 attrs0).error = some (.implementationError i errs) →
      errs = checkInterface (mergeDefaults (reduce_interfaces implements0) attrs0) i ∧
      errs ≠ [] ∧
      ∃ l1 l2, reduce_interfaces implements0 = l1 ++ i :: l2 ∧
        ∀ j ∈ l1,
          checkInterface (mergeDefaults (reduce_interfaces implements0) attrs0) j = [] :=
  fun _ _ _ _ h => firstFailing_spec _ _ _ _ (metanew_error_firstFailing h)

/-- Witness for C1 at the two-interface counterexample input. -/
theorem C1_first_offending_witness :
    ["missing method: foo()"] =
      checkInterface (mergeDefaults (reduce_interfaces [fixFoo, fixBar]) []) fixFoo ∧
    (["missing method: foo()"] : List String) ≠ [] ∧
    ∃ l1 l2, reduce_interfaces [fixFoo, fixBar] = l1 ++ fixFoo :: l2 ∧
      ∀ j ∈ l1,
        checkInterface (mergeDefaults (reduce_interfaces [fixFoo, fixBar]) []) j = [] :=
  C1_first_offending_interface [fixFoo, fixBar] [] fixFoo ["missing method: foo()"] rfl

/-- C2: under a successful declaration the registered interfaces are
exactly the reduced implements list together with everything reachable
through declared parents; any failing declaration registers nothing, and
a `ConflictingInterfacesError` aborts before the metaclass, so the
conflicting declaration registers with neither interface. -/
theorem C2_registration :
    (∀ (implements0 : List Iface) (attrs0 : List (String × Value)),
      (metanew implements0 attrs0).error = none →
      ∀ x, x ∈ (metanew implements0 attrs0).registered ↔
        ∃ j ∈ reduce_interfaces implements0, Reaches j x) ∧
    (∀ (implements0 : List Iface) (attrs0 : List (String × Value)) (e : MetanewError),
      (metanew implements0 attrs0).error = some e →
      (metanew implements0 attrs0).registered = []) ∧
    (declareImpl [fixFlyer, fixSwimmer] [] = .error (fixSwimmer, fixFlyer) ∧
     registeredOf (declareImpl [fixFlyer, fixSwimmer] []) = []) := by
  refine ⟨?_, ?_, rfl, rfl⟩
  · intro implements0 attrs0 h x
    rw [metanew_success h]
    simp only [registerAll]
    rw [List.mem_flatMap]
    constructor
    · rintro ⟨j, hj, hx⟩
      exact ⟨j, hj, (mem_selfAndAncestors j x).1 hx⟩
    · rintro ⟨j, hj, hx⟩
      exact ⟨j, hj, (mem_selfAndAncestors j x).2 hx⟩
  · intro implements0 attrs0 e h
    exact metanew_failure h

/-- Witness for C2 at a concrete successful declaration. -/
theorem C2_registration_witness :
    (metanew [fixGreeter] [("greet", Value.fn 2 false)]).error = none ∧
    (fixGreeter ∈ (metanew [fixGreeter] [("greet", Value.fn 2 false)]).registered ↔
      ∃ j ∈ reduce_interfaces [fixGreeter], Reaches j fixGreeter) :=
  ⟨rfl, C2_registration.1 [fixGreeter] [("greet", Value.fn 2 false)] rfl fixGreeter⟩

theorem members_of_name_inj {i : Iface} {m1 m2 : Member}
    (h1 : m1 ∈ members_of i) (h2 : m2 ∈ members_of i)
    (hn : m1.name = m2.name) : m1 = m2 := by
  have g1 := mem_members_of_getattr h1
  have g2 := mem_members_of_getattr h2
  rw [hn, g2] at g1
  exact (Option.some.inj g1).symm

/-- C6: implementing an interface that has a method member with no
default while supplying no member of that name raises, when every other
member is satisfied, an `ImplementationError` whose violation list is
exactly the one "missing method" entry naming that method. -/
theorem C6_missing_method :
    ∀ (i : Iface) (attrs0 : List (String × Value)) (mid : Nat) (n : String) (f : Bool),
      Member.method mid n none f ∈ members_of i →
      List.lookup n attrs0 = none →
      (∀ m' ∈ members_of i, m' ≠ Member.method mid n none f →
        memberErrors (mergeDefaults [i] attrs0) m' = []) →
      (metanew [i] attrs0).error =
        some (.implementationError i ["missing method: " ++ n ++ "()"]) := by
  intro i attrs0 mid n f hmem hlk hothers
  have hnoneall : ∀ m' ∈ members_of i, ∀ mid' d' f',
      m' = Member.method mid' n (some d') f' → False := by
    intro m' hm' mid' d' f' heq
    have hname : m'.name = (Member.method mid n none f).name := by
      rw [heq]; rfl
    have := members_of_name_inj hm' hmem hname
    rw [this] at heq
    simp at heq
  have hmerged : List.lookup n (mergeDefaults [i] attrs0) = none := by
    rw [mergeDefaults_single]
    exact merge_keeps_none (members_of i) attrs0 hnoneall hlk
  have herr : memberErrors (mergeDefaults [i] attrs0) (Member.method mid n none f) =
      ["missing method: " ++ n ++ "()"] := by
    simp only [memberErrors, hmerged]
  obtain ⟨l1, l2, hsplit, hln1, hln2⟩ := members_of_split hmem
  have hcheck : checkInterface (mergeDefaults [i] attrs0) i =
      ["missing method: " ++ n ++ "()"] := by
    rw [checkInterface, hsplit, flatMap_split _ l1 l2 _ ?_ ?_]
    · exact herr
    · intro m' hm'
      refine hothers m' (by rw [hsplit]; exact List.mem_append_left _ hm') ?_
      intro heq
      exact hln1 m' hm' (by rw [heq])
    · intro m' hm'
      refine hothers m'
        (by rw [hsplit]; exact List.mem_append_right _ (List.mem_cons_of_mem _ hm')) ?_
      intro heq
      exact hln2 m' hm' (by rw [heq])
  have hff : firstFailing (mergeDefaults [i] attrs0) [i] =
      some (i, ["missing method: " ++ n ++ "()"]) := by
    simp only [firstFailing, hcheck]
    rfl
  rw [metanew_unfold, reduce_single, hff]

/-- Witness for C6 at the `Greeter` scenario: one required method,
nothing supplied. -/
theorem C6_missing_method_witness :
    (metanew [fixGreeter] []).error =
      some (.implementationError fixGreeter ["missing method: greet()"]) :=
  C6_missing_method fixGreeter [] 1 "greet" false (by decide) rfl (by decide)

/-- C5: a final method member with a supplied implementation that differs
by identity from the default yields the "implemented final method" error
and a raised `ImplementationError`; supplying exactly the default, or
omitting the member so the default is merged in, yields no error for that
member, and the concrete final-method declarations succeed. -/
theorem C5_final_method :
    (∀ (i : Iface) (attrs0 : List (String × Value)) (mid : Nat) (n : String)
        (d j : Nat) (ov : Bool),
      Member.method mid n (some d) true ∈ members_of i →
      List.lookup n attrs0 = some (Value.fn j ov) → j ≠ d →
      ("implemented final method: " ++ n ++ "()") ∈
        checkInterface (mergeDefaults [i] attrs0) i ∧
      (metanew [i] attrs0).error ≠ none) ∧
    (∀ (i : Iface) (attrs0 : List (String × Value)) (mid : Nat) (n : String)
        (d : Nat) (ov : Bool),
      Member.method mid n (some d) true ∈ members_of i →
      List.lookup n attrs0 = some (Value.fn d ov) →
      memberErrors (mergeDefaults [i] attrs0) (Member.method mid n (some d) true) = []) ∧
    (∀ (i : Iface) (attrs0 : List (String × Value)) (mid : Nat) (n : String) (d : Nat),
      Member.method mid n (some d) true ∈ members_of i →
      List.lookup n attrs0 = none →
      memberErrors (mergeDefaults [i] attrs0) (Member.method mid n (some d) true) = []) ∧
    ((metanew [fixFinal] [("close", Value.fn 5 false)]).error = none ∧
     (metanew [fixFinal] []).error = none) := by
  refine ⟨?_, ?_, ?_, rfl, rfl⟩
  · intro i attrs0 mid n d j ov hmem hlk hne
    have hml : List.lookup n (mergeDefaults [i] attrs0) = some (Value.fn j ov) := by
      rw [mergeDefaults_single]
      exact merge_preserve_some _ _ hlk
    have hd : (d == j) = false := beq_eq_false_iff_ne.2 (Ne.symm hne)
    have herr : memberErrors (mergeDefaults [i] attrs0) (Member.method mid n (some d) true) =
        ["implemented final method: " ++ n ++ "()"] := by
      simp only [memberErrors, hml, implMatches, hd]
      rfl
    have hmemchk : ("implemented final method: " ++ n ++ "()") ∈
        checkInterface (mergeDefaults [i] attrs0) i := by
      rw [checkInterface, List.mem_flatMap]
      exact ⟨_, hmem, by rw [herr]; exact List.mem_singleton.2 rfl⟩
    refine ⟨hmemchk, ?_⟩
    intro hnone
    rw [metanew_unfold, reduce_single] at hnone
    cases hff : firstFailing (mergeDefaults [i] attrs0) [i] with
    | some p =>
      obtain ⟨i', errs'⟩ := p
      rw [hff] at hnone
      simp at hnone
    | none =>
      have hempty : (checkInterface (mergeDefaults [i] attrs0) i).isEmpty = true := by
        by_contra hq
        simp only [firstFailing] at hff
        rw [if_neg hq] at hff
        simp at hff
      rw [List.isEmpty_iff.1 hempty] at hmemchk
      simp at hmemchk
  · intro i attrs0 mid n d ov hmem hlk
    have hml : List.lookup n (mergeDefaults [i] attrs0) = some (Value.fn d ov) := by
      rw [mergeDefaults_single]
      exact merge_preserve_some _ _ hlk
    simp [memberErrors, hml, implMatches]
  · intro i attrs0 mid n d hmem hlk
    obtain ⟨l1, l2, hsplit, hln1, _⟩ := members_of_split hmem
    have hml : List.lookup n (mergeDefaults [i] attrs0) = some (Value.fn d false) := by
      rw [mergeDefaults_single, hsplit]
      refine merge_insert l1 l2 attrs0 mid d true ?_ hlk
      intro m' hm' mid' d' f' heq
      exact hln1 m' hm' (by rw [heq]; rfl)
    simp [memberErrors, hml, implMatches]

/-- Witness for C5 at the concrete final-method interface: a differing
override errs, the exact default or omission does not. -/
theorem C5_final_method_witness :
    (("implemented final method: close()") ∈
      checkInterface (mergeDefaults [fixFinal] [("close", Value.fn 7 false)]) fixFinal ∧
    (metanew [fixFinal] [("close", Value.fn 7 false)]).error ≠ none) ∧
    memberErrors (mergeDefaults [fixFinal] [("close", Value.fn 5 false)])
      (Member.method 4 "close" (some 5) true) = [] ∧
    memberErrors (mergeDefaults [fixFinal] [])
      (Member.method 4 "close" (some 5) true) = [] :=
  ⟨C5_final_method.1 fixFinal [("close", Value.fn 7 false)] 4 "close" 5 7 false
      (by decide) rfl (by decide),
   C5_final_method.2.1 fixFinal [("close", Value.fn 5 false)] 4 "close" 5 false
      (by decide) rfl,
   C5_final_method.2.2.1 fixFinal [] 4 "close" 5 (by decide) rfl⟩
